import Mathlib

/-!
Verification of the TlmTools daily-aggregation pipeline.

Shallow embedding of `avg_pools.py` (pool-record parser, date normalizer,
daily aggregator, report emitter) and of the ingestion/store logic of
`TLM_Pools.py`.  Strings are modelled as Lean `String` (lists of unicode
scalar values, matching Python `str` code points); numeric amounts are
modelled as exact rationals `ℚ` (the binary rounding of Python `float`
is not modelled).
-/

set_option maxRecDepth 4000

attribute [local semireducible] Rat.add Rat.mul Rat.inv Rat.sub Rat.ofScientific

/-! ### Character and string utilities mirroring Python `str` methods -/

/-- Single-quote character (written via code point to keep sources plain). -/
def squote : Char := Char.ofNat 39

/-- Double-quote character. -/
def dquote : Char := Char.ofNat 34

/-- Backslash character. -/
def bslash : Char := Char.ofNat 92

/-- Left curly brace character. -/
def lbrace : Char := Char.ofNat 123

/-- Right curly brace character. -/
def rbrace : Char := Char.ofNat 125

/-- Newline character. -/
def nlChar : Char := Char.ofNat 10

/-- Tab character. -/
def tabChar : Char := Char.ofNat 9

/-- Carriage-return character. -/
def crChar : Char := Char.ofNat 13

/-- Whitespace in the sense of Python `str.strip()` (ASCII subset). -/
def isPySpace (c : Char) : Bool :=
  c = ' ' || c = tabChar || c = nlChar || c = crChar ||
  c = Char.ofNat 11 || c = Char.ofNat 12

/-- Python `s.strip()`: remove whitespace from both ends. -/
def stripWs (l : List Char) : List Char :=
  ((l.dropWhile isPySpace).reverse.dropWhile isPySpace).reverse

/-- Skip leading whitespace (used inside the literal grammar). -/
def skipPyWs (l : List Char) : List Char :=
  l.dropWhile isPySpace

/-- Python `s.strip(c)` for a single character `c`. -/
def stripChar (c : Char) (l : List Char) : List Char :=
  ((l.dropWhile (· = c)).reverse.dropWhile (· = c)).reverse

/-- Python `s.replace(" TLM", "")`: delete every occurrence of the
unit suffix, scanning left to right (source: `avg_pools.py` line 40). -/
def replaceTLM : List Char → List Char
  | ' ' :: 'T' :: 'L' :: 'M' :: rest => replaceTLM rest
  | c :: rest => c :: replaceTLM rest
  | [] => []

/-- Numeric value of a digit string. -/
def digitsNat (l : List Char) : ℕ :=
  l.foldl (fun a c => a * 10 + (c.toNat - 48)) 0

/-- Python `float(s)` on the decimal subset actually exercised by the data:
optional sign, digits with an optional fractional part.  (Exponents,
underscores, `inf`/`nan` are outside the modelled subset.)  `none` models
the `ValueError` raised by `float` on anything else. -/
def pyFloatCore (l : List Char) : Option ℚ :=
  let ds := l.takeWhile Char.isDigit
  let rest := l.drop ds.length
  match rest with
  | '.' :: fs =>
    let fd := fs.takeWhile Char.isDigit
    if (fs.drop fd.length).isEmpty then
      if ds.isEmpty && fd.isEmpty then none
      else some ((digitsNat ds : ℚ) + (digitsNat fd : ℚ) / ((10 : ℚ) ^ fd.length))
    else none
  | [] => if ds.isEmpty then none else some (digitsNat ds : ℚ)
  | _ => none

/-- Python `float(s)` including the leading sign and surrounding whitespace. -/
def pyFloat (l : List Char) : Option ℚ :=
  match stripWs l with
  | '-' :: rest => (pyFloatCore rest).map Neg.neg
  | '+' :: rest => pyFloatCore rest
  | t => pyFloatCore t

/-! ### Model of `ast.literal_eval`

`parse_pool_data` defers to the standard-library `ast.literal_eval`; the
model below implements its grammar on the subset exercised by the pool
data: strings, integers, decimal floats, booleans, `None`, lists and
dicts.  `none` models both `SyntaxError` and `ValueError` (the two are
caught identically by the caller). -/

/-- Python literal values. -/
inductive PyLit where
  | none : PyLit
  | bool (b : Bool) : PyLit
  | int (n : ℤ) : PyLit
  | float (q : ℚ) : PyLit
  | str (s : String) : PyLit
  | list (xs : List PyLit) : PyLit
  | dict (entries : List (PyLit × PyLit)) : PyLit

/-- Unary minus on a parsed numeric literal. -/
def pyNeg : PyLit → PyLit
  | .int n => .int (-n)
  | .float q => .float (-q)
  | x => x

/-- Characters contributed by a string escape, reversed for accumulation.
Unknown escapes keep the backslash, as Python does. -/
def escRev (e : Char) : List Char :=
  if e = 'n' then [nlChar]
  else if e = 't' then [tabChar]
  else if e = 'r' then [crChar]
  else if e = squote then [squote]
  else if e = dquote then [dquote]
  else if e = bslash then [bslash]
  else if e = '0' then [Char.ofNat 0]
  else [e, bslash]

/-- Scan a quoted string body up to the closing quote `q`. -/
def parseStrAux (q : Char) : List Char → List Char → Option (String × List Char)
  | [], _ => Option.none
  | c :: cs, acc =>
    if c = q then some (⟨acc.reverse⟩, cs)
    else if c = bslash then
      match cs with
      | [] => Option.none
      | e :: cs2 => parseStrAux q cs2 (escRev e ++ acc)
    else parseStrAux q cs (c :: acc)

/-- Parse a numeric literal (integer or decimal float) at the head. -/
def parseNumber (l : List Char) : Option (PyLit × List Char) :=
  let ds := l.takeWhile Char.isDigit
  let rest := l.drop ds.length
  match rest with
  | '.' :: fs =>
    let fd := fs.takeWhile Char.isDigit
    if ds.isEmpty && fd.isEmpty then Option.none
    else
      some (.float ((digitsNat ds : ℚ) + (digitsNat fd : ℚ) / ((10 : ℚ) ^ fd.length)),
        fs.drop fd.length)
  | _ => if ds.isEmpty then Option.none else some (.int (digitsNat ds : ℤ), rest)

mutual

/-- Parse one Python literal; fuel bounds the recursion depth. -/
def parseLit : ℕ → List Char → Option (PyLit × List Char)
  | 0, _ => Option.none
  | fuel + 1, l =>
    let l1 := skipPyWs l
    match l1 with
    | [] => Option.none
    | c :: rest =>
      if c = squote then (parseStrAux squote rest []).map (fun p => (PyLit.str p.1, p.2))
      else if c = dquote then (parseStrAux dquote rest []).map (fun p => (PyLit.str p.1, p.2))
      else if c = '[' then (parseListItems fuel rest).map (fun p => (PyLit.list p.1, p.2))
      else if c = lbrace then (parseDictItems fuel rest).map (fun p => (PyLit.dict p.1, p.2))
      else if c = '-' then (parseNumber (skipPyWs rest)).map (fun p => (pyNeg p.1, p.2))
      else if c = '+' then parseNumber (skipPyWs rest)
      else if l1.take 4 = ['T', 'r', 'u', 'e'] then some (PyLit.bool true, l1.drop 4)
      else if l1.take 5 = ['F', 'a', 'l', 's', 'e'] then some (PyLit.bool false, l1.drop 5)
      else if l1.take 4 = ['N', 'o', 'n', 'e'] then some (PyLit.none, l1.drop 4)
      else parseNumber l1

/-- Parse list items starting at an item position (or a closing bracket). -/
def parseListItems : ℕ → List Char → Option (List PyLit × List Char)
  | 0, _ => Option.none
  | fuel + 1, l =>
    let l1 := skipPyWs l
    if l1.take 1 = [']'] then some ([], l1.drop 1)
    else
      match parseLit fuel l1 with
      | Option.none => Option.none
      | some (x, r) => (parseListRest fuel r).map (fun p => (x :: p.1, p.2))

/-- Parse the continuation of a list after an item: `,` or `]`. -/
def parseListRest : ℕ → List Char → Option (List PyLit × List Char)
  | 0, _ => Option.none
  | fuel + 1, l =>
    let l1 := skipPyWs l
    if l1.take 1 = [']'] then some ([], l1.drop 1)
    else if l1.take 1 = [','] then parseListItems fuel (l1.drop 1)
    else Option.none

/-- Parse dict entries starting at a key position (or a closing brace). -/
def parseDictItems : ℕ → List Char → Option (List (PyLit × PyLit) × List Char)
  | 0, _ => Option.none
  | fuel + 1, l =>
    let l1 := skipPyWs l
    if l1.take 1 = [rbrace] then some ([], l1.drop 1)
    else
      match parseLit fuel l1 with
      | Option.none => Option.none
      | some (k, r) =>
        let r1 := skipPyWs r
        if r1.take 1 = [':'] then
          match parseLit fuel (r1.drop 1) with
          | Option.none => Option.none
          | some (v, r2) => (parseDictRest fuel r2).map (fun p => ((k, v) :: p.1, p.2))
        else Option.none

/-- Parse the continuation of a dict after an entry: `,` or the brace. -/
def parseDictRest : ℕ → List Char → Option (List (PyLit × PyLit) × List Char)
  | 0, _ => Option.none
  | fuel + 1, l =>
    let l1 := skipPyWs l
    if l1.take 1 = [rbrace] then some ([], l1.drop 1)
    else if l1.take 1 = [','] then parseDictItems fuel (l1.drop 1)
    else Option.none

end

/-- Model of `ast.literal_eval`: parse a complete literal, requiring only
trailing whitespace afterwards.  `Option.none` models a raised
`SyntaxError`/`ValueError`. -/
def literal_eval (s : String) : Option PyLit :=
  match parseLit (2 * s.data.length + 8) s.data with
  | some (lit, rest) => if (skipPyWs rest).isEmpty then some lit else Option.none
  | Option.none => Option.none

/-! ### The pool-record parser (`avg_pools.py`, `parse_pool_data`) -/

/-- The one exception that can escape `parse_pool_data`: the `TypeError`
raised by `for item in pool_list` when the decoded literal is not
iterable (the `except` clause catches only `JSONDecodeError`,
`ValueError` and `SyntaxError`). -/
inductive PyError where
  | typeError : PyError
deriving DecidableEq

/-- Python iteration over a decoded literal: lists yield their items,
dicts their keys, strings their characters; numbers, booleans and
`None` are not iterable. -/
def pyIter : PyLit → Option (List PyLit)
  | .list xs => some xs
  | .dict es => some (es.map Prod.fst)
  | .str s => some (s.data.map (fun c => PyLit.str ⟨[c]⟩))
  | _ => Option.none

/-- Python `x == "k"` between a literal and a string key: only equal
string literals match. -/
def pyIsStrEq (x : PyLit) (k : String) : Bool :=
  match x with
  | .str s => s = k
  | _ => false

/-- Dict lookup by a string key; the last binding wins, matching Python's
dict construction where later duplicate keys overwrite earlier ones. -/
def dictLookupStr (es : List (PyLit × PyLit)) (k : String) : Option PyLit :=
  (es.reverse.find? (fun e => pyIsStrEq e.1 k)).map Prod.snd

/-- `pool_data[key] = v` on the accumulated mapping: overwrite in place
if the key is present, append otherwise (Python dict semantics). -/
def upsert (m : List (String × ℚ)) (k : String) (v : ℚ) : List (String × ℚ) :=
  if m.any (fun e => e.1 = k) then m.map (fun e => if e.1 = k then (k, v) else e)
  else m ++ [(k, v)]

/-- `key in pool_data`. -/
def dictHas (k : String) (m : List (String × ℚ)) : Bool :=
  m.any (fun e => e.1 = k)

/-- `pool_data.get(key, 0)`. -/
def dictGet (k : String) (m : List (String × ℚ)) : ℚ :=
  ((m.find? (fun e => e.1 = k)).map Prod.snd).getD 0

/-- `str(item['value']).replace(' TLM', '').strip()` followed by
`float(...)`: string values have the unit suffix stripped and are parsed
as decimals; numeric literals round-trip through `str` unchanged;
anything else makes `float` raise `ValueError` (modelled as `none`). -/
def floatOfValue : PyLit → Option ℚ
  | .str s => pyFloat (replaceTLM s.data)
  | .int n => some (n : ℚ)
  | .float q => some q
  | _ => Option.none

/-- One iteration of the `for item in pool_list` loop of
`parse_pool_data` (`avg_pools.py` lines 38-45): only dict items carrying
both a `key` and a `value` field contribute; a `ValueError` from the
numeric conversion is caught, skipping just that field.  Dict keys other
than string literals are outside the modelled scope (the pool data keys
are strings). -/
def poolStep (acc : List (String × ℚ)) (item : PyLit) : List (String × ℚ) :=
  match item with
  | .dict es =>
    match dictLookupStr es "key", dictLookupStr es "value" with
    | some kLit, some vLit =>
      match kLit with
      | .str k =>
        match floatOfValue vLit with
        | some v => upsert acc k v
        | Option.none => acc
      | _ => acc
    | _, _ => acc
  | _ => acc

/-- `pool_str.strip('"').strip("'")` (`avg_pools.py` line 31). -/
def cleanPool (s : String) : String :=
  ⟨stripChar squote (stripChar dquote s.data)⟩

/-- `parse_pool_data` (`avg_pools.py` lines 15-48).  A blank input skips
parsing; a failed `literal_eval` is caught and yields the empty mapping;
a literal that decodes but is not iterable raises `TypeError`, which the
function's `except` clause does not catch. -/
def parse_pool_data (poolStr : String) : Except PyError (List (String × ℚ)) :=
  if (stripWs poolStr.data).isEmpty then .ok []
  else
    match literal_eval (cleanPool poolStr) with
    | Option.none => .ok []
    | some lit =>
      match pyIter lit with
      | Option.none => .error .typeError
      | some items => .ok (items.foldl poolStep [])

/-! ### The date normalizer (`avg_pools.py`, `extract_date`) -/

/-- `extract_date` (`avg_pools.py` lines 50-67): `split('T')[0]` when the
string contains a `T`, otherwise `split(' ')[0]`; taking index 0 of a
split is the prefix before the first separator, i.e. a `takeWhile`. -/
def extract_date (s : String) : String :=
  if 'T' ∈ s.data then ⟨s.data.takeWhile (· ≠ 'T')⟩
  else ⟨s.data.takeWhile (· ≠ ' ')⟩

/-! ### Emission formatting -/

/-- Round `q * 10^4` to an integer, ties to even (the rounding of
`f'{x:.4f}'`; exact decimal ties of a binary float are immaterial for
the rationals handled here). -/
def round4 (q : ℚ) : ℤ :=
  let s := q * 10000
  let n := ⌊s⌋
  let r := s - (n : ℚ)
  if r > 1 / 2 then n + 1
  else if r < 1 / 2 then n
  else if n % 2 = 0 then n else n + 1

/-- Zero-pad a fractional part to four digits. -/
def pad4 (n : ℕ) : String :=
  if n < 10 then "000" ++ toString n
  else if n < 100 then "00" ++ toString n
  else if n < 1000 then "0" ++ toString n
  else toString n

/-- `f'{q:.4f}'`: fixed four-decimal rendering. -/
def format4 (q : ℚ) : String :=
  let n := round4 q
  (if n < 0 then "-" else "") ++ toString (n.natAbs / 10000) ++ "." ++ pad4 (n.natAbs % 10000)

/-! ### Python string ordering

Python `sorted` compares strings lexicographically by code point.  The
comparator is modelled by a structural function (the library order on
`String` is semantically identical, but its `Decidable` instance is not
kernel-reducible). -/

/-- Code-point lexicographic comparison of character lists. -/
def lexLe : List Char → List Char → Bool
  | [], _ => true
  | _ :: _, [] => false
  | a :: as, b :: bs => if a < b then true else if a = b then lexLe as bs else false

/-- The ordering used by Python `sorted` on strings. -/
def pyLeR (a b : String) : Prop := lexLe a.data b.data = true

instance : DecidableRel pyLeR := fun a b =>
  inferInstanceAs (Decidable (lexLe a.data b.data = true))

theorem lexLe_total : ∀ (as bs : List Char), lexLe as bs = true ∨ lexLe bs as = true
  | [], _ => Or.inl rfl
  | _ :: _, [] => Or.inr rfl
  | a :: as, b :: bs => by
    rcases lt_trichotomy a b with h | h | h
    · left; simp [lexLe, h]
    · subst h
      rcases lexLe_total as bs with ih | ih
      · left; simp [lexLe, ih, lt_irrefl]
      · right; simp [lexLe, ih, lt_irrefl]
    · right; simp [lexLe, h]

theorem lexLe_trans : ∀ {as bs cs : List Char},
    lexLe as bs = true → lexLe bs cs = true → lexLe as cs = true
  | [], _, _, _, _ => rfl
  | _ :: _, [], _, h1, _ => by simp [lexLe] at h1
  | _ :: _, _ :: _, [], _, h2 => by simp [lexLe] at h2
  | a :: as, b :: bs, c :: cs, h1, h2 => by
    simp only [lexLe] at h1 h2 ⊢
    by_cases hab : a < b
    · by_cases hbc : b < c
      · simp [lt_trans hab hbc]
      · by_cases hbc2 : b = c
        · subst hbc2; simp [hab]
        · rw [if_neg hbc, if_neg hbc2] at h2; cases h2
    · by_cases hab2 : a = b
      · subst hab2
        rw [if_neg hab, if_pos rfl] at h1
        by_cases hac : a < c
        · simp [hac]
        · by_cases hac2 : a = c
          · subst hac2
            rw [if_neg hac, if_pos rfl] at h2 ⊢
            exact lexLe_trans h1 h2
          · rw [if_neg hac, if_neg hac2] at h2; cases h2
      · rw [if_neg hab, if_neg hab2] at h1; cases h1

instance : IsTotal String pyLeR := ⟨fun a b => lexLe_total a.data b.data⟩

instance : IsTrans String pyLeR := ⟨fun _ _ _ => lexLe_trans⟩

theorem lt_of_lexLe_ne : ∀ {as bs : List Char},
    lexLe as bs = true → as ≠ bs → List.Lex (· < ·) as bs
  | [], [], _, hne => absurd rfl hne
  | [], _ :: _, _, _ => List.Lex.nil
  | _ :: _, [], h, _ => by simp [lexLe] at h
  | a :: as, b :: bs, h, hne => by
    simp only [lexLe] at h
    by_cases hab : a < b
    · exact List.Lex.rel hab
    · by_cases hab2 : a = b
      · subst hab2
        rw [if_neg hab, if_pos rfl] at h
        exact List.Lex.cons (lt_of_lexLe_ne h (fun he => hne (by rw [he])))
      · rw [if_neg hab, if_neg hab2] at h; cases h

theorem sorted_lt_of_pyLe {l : List String} (h : List.Sorted pyLeR l) (hn : l.Nodup) :
    List.Sorted (· < ·) l := by
  refine h.imp₂ (fun a b hR hne => ?_) hn
  exact String.lt_iff_toList_lt.mpr
    (lt_of_lexLe_ne hR (fun he => hne (by cases a; cases b; cases he; rfl)))

/-! ### The daily aggregator (`avg_pools.py`) -/

/-- `calculate_daily_averages` (`avg_pools.py` lines 69-98): collect all
keys over the day's mappings, iterate them in sorted order, and for each
key average the values of exactly the mappings containing it.
`insertionSort` models Python `sorted` (any comparison sort agrees on
the duplicate-free key set). -/
def calculate_daily_averages (daily_pools : List (List (String × ℚ))) :
    List (String × String) :=
  if daily_pools.isEmpty then []
  else
    let sortedKeys :=
      ((daily_pools.flatMap (fun m => m.map Prod.fst)).dedup).insertionSort pyLeR
    sortedKeys.filterMap (fun k =>
      let values := ((daily_pools.filter (fun m => dictHas k m)).map (dictGet k))
      if values.isEmpty then Option.none
      else some (k, format4 (values.sum / (values.length : ℚ)) ++ " TLM"))

/-- One row of the raw store as read by the aggregator (`id` and
`raw_timestamp` are not consulted by `process_csv_data`). -/
structure SrcRow where
  date : String
  pool : String
deriving DecidableEq

/-- One output row of the aggregate table. -/
structure DailyAgg where
  id : ℕ
  day : String
  avgpool : List (String × String)
  numberofentries : ℕ
deriving DecidableEq

/-- `df['day'] = ...; df['parsed_pool'] = df['pool'].apply(parse_pool_data)`:
day extraction never throws, and an exception from any row's parse
propagates out of `apply`, aborting the whole run (`none`). -/
def parseAll : List SrcRow → Option (List (String × List (String × ℚ)))
  | [] => some []
  | r :: rs =>
    match parse_pool_data r.pool with
    | .error _ => Option.none
    | .ok m => (parseAll rs).map (fun t => (extract_date r.date, m) :: t)

/-- `process_csv_data` (`avg_pools.py` lines 100-173): empty input is an
error (`None`); rows whose parse yielded an empty mapping are dropped;
the remainder is grouped by day — pandas `groupby` sorts the group keys
ascending and keeps the original order inside each group — and one
aggregate row per day is emitted with a 1-based sequential id.  A raised
parse error is caught by the top-level handler, returning `None`. -/
def processCsvData (rows : List SrcRow) : Option (List DailyAgg) :=
  if rows.isEmpty then Option.none
  else
    match parseAll rows with
    | Option.none => Option.none
    | some parsed =>
      let valid := parsed.filter (fun p => !p.2.isEmpty)
      let days := ((valid.map Prod.fst).dedup).insertionSort pyLeR
      some (days.enum.map (fun p =>
        let g := valid.filter (fun q => q.1 = p.2)
        { id := p.1 + 1, day := p.2,
          avgpool := calculate_daily_averages (g.map Prod.snd),
          numberofentries := g.length }))

/-- Decidable equality for `Except` results (not provided by core). -/
instance {ε α : Type} [DecidableEq ε] [DecidableEq α] : DecidableEq (Except ε α) := fun a b =>
  match a, b with
  | .ok x, .ok y =>
    if h : x = y then isTrue (by rw [h]) else isFalse (by intro hh; cases hh; exact h rfl)
  | .error x, .error y =>
    if h : x = y then isTrue (by rw [h]) else isFalse (by intro hh; cases hh; exact h rfl)
  | .ok _, .error _ => isFalse (by intro hh; cases hh)
  | .error _, .ok _ => isFalse (by intro hh; cases hh)

/-! ### The append-safe store (`TLM_Pools.py`) -/

/-- One row of the raw durable table (`minepooldata.csv`). -/
structure StoreRow where
  id : String
  date : String
  pool : String
  raw_timestamp : String
deriving DecidableEq

/-- The state of the raw durable table as the ingestion script observes
it: missing, existing but failing to read (`csv.Error`/`IOError`),
existing with a header lacking the `id` column, or readable.  The rows
component of the degraded states is the physical content that appends
still land on. -/
inductive RawStore where
  | absent : RawStore
  | unreadable (rows : List StoreRow) : RawStore
  | missingId (rows : List StoreRow) : RawStore
  | table (rows : List StoreRow) : RawStore
deriving DecidableEq

/-- `existing_ids` (`TLM_Pools.py` lines 53-66): the set of ids read for
deduplication; every degraded state falls back to the empty set. -/
def existing_ids : RawStore → List String
  | .table rows => rows.map StoreRow.id
  | _ => []

/-- `new_rows` (`TLM_Pools.py` line 68): keep the processed rows whose id
is not already present. -/
def new_rows (store : RawStore) (batch : List StoreRow) : List StoreRow :=
  batch.filter (fun r => r.id ∉ existing_ids store)

/-- The physical rows of the store, whatever its readability. -/
def storeRows : RawStore → List StoreRow
  | .absent => []
  | .unreadable rows => rows
  | .missingId rows => rows
  | .table rows => rows

/-- Opening the file in append (or write, when absent) mode and writing
`rows`; a fresh file gets a header and becomes a readable table. -/
def appendRows (store : RawStore) (xs : List StoreRow) : RawStore :=
  match store with
  | .absent => .table xs
  | .unreadable rows => .unreadable (rows ++ xs)
  | .missingId rows => .missingId (rows ++ xs)
  | .table rows => .table (rows ++ xs)

/-- One ingestion append (`TLM_Pools.py` lines 68-84): compute `new_rows`
and write them only when nonempty. -/
def ingestStep (store : RawStore) (batch : List StoreRow) : RawStore :=
  let nr := new_rows store batch
  if nr.isEmpty then store else appendRows store nr

/-- One row of the remote API response; `none` fields model keys missing
from the JSON object. -/
structure ApiRow where
  snapshot_id : Option String
  snapshot_date : Option String
  pool_buckets : Option String
deriving DecidableEq

/-- Two-digit rendering for the canonical timestamp. -/
def pad2 (n : ℕ) : String :=
  if n < 10 then "0" ++ toString n else toString n

/-- Parse two digit characters into a number. -/
def twoDigits (a b : Char) : Option ℕ :=
  if a.isDigit && b.isDigit then some ((a.toNat - 48) * 10 + (b.toNat - 48)) else Option.none

/-- `datetime.fromisoformat` on the canonical `YYYY-MM-DD[ HH:MM:SS[.ffffff]]`
forms (the script first replaces `T` by a space); exotic ISO variants are
outside the modelled subset.  Month/day/hour/minute/second ranges are
checked coarsely (calendar-exact day-per-month validation is not
modelled; no claim depends on it). -/
def fromIso (l : List Char) : Option (ℕ × ℕ × ℕ × ℕ × ℕ × ℕ) :=
  match l with
  | y1 :: y2 :: y3 :: y4 :: '-' :: m1 :: m2 :: '-' :: d1 :: d2 :: rest =>
    if y1.isDigit && y2.isDigit && y3.isDigit && y4.isDigit then
      match twoDigits m1 m2, twoDigits d1 d2 with
      | some mo, some da =>
        if 1 ≤ mo && mo ≤ 12 && 1 ≤ da && da ≤ 31 then
          let y := digitsNat [y1, y2, y3, y4]
          match rest with
          | [] => some (y, mo, da, 0, 0, 0)
          | ' ' :: h1 :: h2 :: ':' :: n1 :: n2 :: ':' :: s1 :: s2 :: rest2 =>
            match twoDigits h1 h2, twoDigits n1 n2, twoDigits s1 s2 with
            | some h, some n, some s =>
              if h ≤ 23 && n ≤ 59 && s ≤ 59 &&
                  (rest2.isEmpty ||
                    (rest2.take 1 = ['.'] && !(rest2.drop 1).isEmpty &&
                      (rest2.drop 1).all Char.isDigit && (rest2.drop 1).length ≤ 6)) then
                some (y, mo, da, h, n, s)
              else Option.none
            | _, _, _ => Option.none
          | _ => Option.none
        else Option.none
      | _, _ => Option.none
    else Option.none
  | _ => Option.none

/-- `TLM_Pools.py` lines 34-40: reformat the snapshot timestamp to a
canonical `"YYYY-MM-DD HH:MM:SS"` display form, or record the sentinel
`"Invalid timestamp"` when `fromisoformat` raises. -/
def formatSnapshotDate (ts : String) : String :=
  match fromIso (ts.data.map (fun c => if c = 'T' then ' ' else c)) with
  | some (y, mo, da, h, n, s) =>
    toString y ++ "-" ++ pad2 mo ++ "-" ++ pad2 da ++ " " ++
      pad2 h ++ ":" ++ pad2 n ++ ":" ++ pad2 s
  | Option.none => "Invalid timestamp"

/-- `TLM_Pools.py` lines 29-47: a response row missing any of the three
expected fields is reported and skipped (`none`); otherwise it becomes a
store row. -/
def processApiRow (r : ApiRow) : Option StoreRow :=
  match r.snapshot_id, r.snapshot_date, r.pool_buckets with
  | some i, some d, some p =>
    some { id := i, date := formatSnapshotDate d, pool := p, raw_timestamp := d }
  | _, _, _ => Option.none

/-- Outcome of the network stage: a `requests` exception, a response
without the expected top-level structure, or a `rows` array. -/
inductive FetchResult where
  | netError : FetchResult
  | badShape : FetchResult
  | ok (rows : List ApiRow) : FetchResult
deriving DecidableEq

/-- One full ingestion run (`TLM_Pools.py`): a network error or a
structurally unusable response is caught at top level before any write;
an empty `rows` array exits early; rows with missing fields are skipped
individually; a file write error (`IOError`, modelled at the granularity
of the whole append, e.g. the `open` call failing) is caught leaving the
store as read.  `writeOk` injects the write-stage outcome. -/
def runIngestion (fetch : FetchResult) (writeOk : Bool) (store : RawStore) : RawStore :=
  match fetch with
  | .netError => store
  | .badShape => store
  | .ok apiRows =>
    if apiRows.isEmpty then store
    else
      let processed := apiRows.filterMap processApiRow
      if processed.isEmpty then store
      else if writeOk then ingestStep store processed else store

/-! ### Spec-side definitions (used to compare the code against the
specification's own wording) -/

/-- Spec wording, date part: ten characters shaped `YYYY-MM-DD`. -/
def dateShapeB (d : List Char) : Bool :=
  match d with
  | [a, b, c, e, f, g, h, i, j, k] =>
    a.isDigit && b.isDigit && c.isDigit && e.isDigit && f = '-' &&
    g.isDigit && h.isDigit && i = '-' && j.isDigit && k.isDigit
  | _ => false

/-- Spec wording, time part: eight characters shaped `HH:MM:SS`. -/
def timeShapeB (t : List Char) : Bool :=
  match t with
  | [a, b, c, e, f, g, h, i] =>
    a.isDigit && b.isDigit && c = ':' && e.isDigit && f.isDigit && g = ':' &&
    h.isDigit && i.isDigit
  | _ => false

/-- Spec wording, a "date-time-separated-by-`sep`" timestamp: a date,
the separator, a time. -/
def isDateTimeForm (sep : Char) (s : String) : Bool :=
  dateShapeB (s.data.take 10) &&
    match s.data.drop 10 with
    | c :: t => c = sep && timeShapeB t
    | [] => false

/-- The mapping a raw row's pool field parses to (empty when parsing
failed), as referred to by the spec's per-day averaging clauses. -/
def parsedMapOf (r : SrcRow) : List (String × ℚ) :=
  ((parse_pool_data r.pool).toOption).getD []

/-- Spec wording (C1): the records of day `d` that contain key `k`. -/
def specKeyRecords (rows : List SrcRow) (d k : String) : List (List (String × ℚ)) :=
  (rows.filter (fun r => extract_date r.date = d && dictHas k (parsedMapOf r))).map parsedMapOf

/-- Spec wording (C1): sum of `k`'s values over the records of day `d`
containing `k`, divided by the number of those records. -/
def specAvg (rows : List SrcRow) (d k : String) : ℚ :=
  ((specKeyRecords rows d k).map (dictGet k)).sum / ((specKeyRecords rows d k).length : ℚ)

/-- Spec wording (C2): the pool field "parsed successfully", i.e. it was
nonblank and its literal decoded without error (regardless of how many
entries resulted). -/
def poolDecodeOk (s : String) : Bool :=
  !(stripWs s.data).isEmpty && (literal_eval (cleanPool s)).isSome

/-- Spec wording (C2): number of raw rows of day `d` whose pool field
parsed successfully. -/
def specSuccessCount (rows : List SrcRow) (d : String) : ℕ :=
  (rows.filter (fun r => extract_date r.date = d && poolDecodeOk r.pool)).length

/-! ### Derived views of `processCsvData`, used to structure proofs -/

/-- Per-row result of the day-extraction and parse phases (defined when
no parse raised). -/
def pf (r : SrcRow) : String × List (String × ℚ) :=
  (extract_date r.date, parsedMapOf r)

/-- The rows surviving the `len(parsed) > 0` filter. -/
def validOf (rows : List SrcRow) : List (String × List (String × ℚ)) :=
  (rows.map pf).filter (fun p => !p.2.isEmpty)

/-- The distinct days of the surviving rows, ascending. -/
def daysOf (rows : List SrcRow) : List String :=
  (((validOf rows).map Prod.fst).dedup).insertionSort pyLeR

/-- The aggregate row the pipeline emits for day `d` at position `i`. -/
def aggOf (rows : List SrcRow) (i : ℕ) (d : String) : DailyAgg :=
  let g := (validOf rows).filter (fun q => q.1 = d)
  { id := i + 1, day := d,
    avgpool := calculate_daily_averages (g.map Prod.snd),
    numberofentries := g.length }

/-! ### Supporting lemmas -/

theorem takeWhile_all {p : Char → Bool} : ∀ {l : List Char}, (∀ c ∈ l, p c = true) →
    l.takeWhile p = l
  | [], _ => rfl
  | c :: cs, h => by
    simp only [List.takeWhile_cons, h c (by simp)]
    exact congrArg (c :: ·) (takeWhile_all fun x hx => h x (by simp [hx]))

theorem takeWhile_append_stop {p : Char → Bool} {l : List Char} {x : Char} (r : List Char)
    (h : ∀ c ∈ l, p c = true) (hx : p x = false) :
    (l ++ x :: r).takeWhile p = l := by
  induction l with
  | nil => simp [List.takeWhile_cons, hx]
  | cons c cs ih =>
    simp only [List.cons_append, List.takeWhile_cons, h c (by simp)]
    exact congrArg (c :: ·) (ih fun y hy => h y (by simp [hy]))

theorem charNe {c x : Char} (h : c.isDigit = true) (hx : x.isDigit = false) : c ≠ x :=
  fun he => by subst he; rw [h] at hx; cases hx

theorem dateShape_chars {d : List Char} (h : dateShapeB d = true) :
    ∀ c ∈ d, (c.isDigit || c = '-') = true := by
  match d, h with
  | [a, b, c, e, f, g, h1, i, j, k], hsh =>
    simp only [dateShapeB, Bool.and_eq_true, decide_eq_true_eq] at hsh
    intro x hx
    simp only [List.mem_cons, List.not_mem_nil, or_false] at hx
    rcases hx with rfl | rfl | rfl | rfl | rfl | rfl | rfl | rfl | rfl | rfl <;>
      simp [hsh.1, hsh.2]

theorem timeShape_chars {t : List Char} (h : timeShapeB t = true) :
    ∀ c ∈ t, (c.isDigit || c = ':') = true := by
  match t, h with
  | [a, b, c, e, f, g, h1, i], hsh =>
    simp only [timeShapeB, Bool.and_eq_true, decide_eq_true_eq] at hsh
    intro x hx
    simp only [List.mem_cons, List.not_mem_nil, or_false] at hx
    rcases hx with rfl | rfl | rfl | rfl | rfl | rfl | rfl | rfl <;>
      simp [hsh.1, hsh.2]

theorem ne_T_of_dateChar {c : Char} (h : (c.isDigit || c = '-') = true) : c ≠ 'T' := by
  rcases Bool.or_eq_true_iff.mp h with hd | he
  · exact charNe hd (by decide)
  · exact fun hc => by rw [decide_eq_true_eq.mp he] at hc; cases hc

theorem ne_space_of_dateChar {c : Char} (h : (c.isDigit || c = '-') = true) : c ≠ ' ' := by
  rcases Bool.or_eq_true_iff.mp h with hd | he
  · exact charNe hd (by decide)
  · exact fun hc => by rw [decide_eq_true_eq.mp he] at hc; cases hc

theorem ne_T_of_timeChar {c : Char} (h : (c.isDigit || c = ':') = true) : c ≠ 'T' := by
  rcases Bool.or_eq_true_iff.mp h with hd | he
  · exact charNe hd (by decide)
  · exact fun hc => by rw [decide_eq_true_eq.mp he] at hc; cases hc

theorem string_mk_data (s : String) : String.mk s.data = s := by
  cases s; rfl

theorem parseAll_eq_map : ∀ {rows : List SrcRow} {parsed},
    parseAll rows = some parsed → parsed = rows.map pf
  | [], parsed, h => by simpa [parseAll] using h.symm
  | r :: rs, parsed, h => by
    cases hp : parse_pool_data r.pool with
    | error e => rw [parseAll, hp] at h; cases h
    | ok m =>
      rw [parseAll, hp] at h
      obtain ⟨t, ht, hcons⟩ := Option.map_eq_some'.mp h
      subst hcons
      rw [parseAll_eq_map ht]
      simp [pf, parsedMapOf, hp, Except.toOption]

theorem processCsvData_eq {rows : List SrcRow} {aggs : List DailyAgg}
    (h : processCsvData rows = some aggs) :
    aggs = (daysOf rows).enum.map (fun p => aggOf rows p.1 p.2) := by
  by_cases he : rows.isEmpty
  · rw [processCsvData, if_pos he] at h; cases h
  · cases hpa : parseAll rows with
    | none => rw [processCsvData, if_neg he, hpa] at h; cases h
    | some parsed =>
      rw [processCsvData, if_neg he, hpa] at h
      have hp := parseAll_eq_map hpa
      subst hp
      injection h with h
      subst h
      rfl

theorem validOf_eq (rows : List SrcRow) :
    validOf rows = (rows.filter (fun r => !(parsedMapOf r).isEmpty)).map pf := by
  unfold validOf
  rw [List.filter_map]
  rfl

theorem group_eq (rows : List SrcRow) (d : String) :
    (validOf rows).filter (fun q => q.1 = d) =
      (rows.filter (fun r => !(parsedMapOf r).isEmpty && extract_date r.date = d)).map pf := by
  rw [validOf_eq, List.filter_map, List.filter_filter]
  congr 1
  apply List.filter_congr
  intro r _
  simp [pf, Function.comp, Bool.and_comm]

theorem group_snd_eq (rows : List SrcRow) (d : String) :
    ((validOf rows).filter (fun q => q.1 = d)).map Prod.snd =
      (rows.filter (fun r => !(parsedMapOf r).isEmpty && extract_date r.date = d)).map
        parsedMapOf := by
  rw [group_eq, List.map_map]
  rfl

theorem isEmpty_false_of_dictHas {k : String} {m : List (String × ℚ)}
    (h : dictHas k m = true) : m.isEmpty = false := by
  cases m with
  | nil => simp [dictHas] at h
  | cons a t => rfl

theorem values_eq (rows : List SrcRow) (d k : String) :
    (((validOf rows).filter (fun q => q.1 = d)).map Prod.snd).filter (fun m => dictHas k m) =
      specKeyRecords rows d k := by
  rw [group_snd_eq, List.filter_map, List.filter_filter]
  unfold specKeyRecords
  congr 1
  apply List.filter_congr
  intro r _
  simp only [Function.comp]
  cases hh : dictHas k (parsedMapOf r)
  · simp [hh]
  · simp [hh, isEmpty_false_of_dictHas hh]

theorem mem_calc {pools : List (List (String × ℚ))} {k v : String}
    (h : (k, v) ∈ calculate_daily_averages pools) :
    (pools.filter (fun m => dictHas k m)).map (dictGet k) ≠ [] ∧
      v = format4 ((((pools.filter (fun m => dictHas k m)).map (dictGet k)).sum) /
        ((((pools.filter (fun m => dictHas k m)).map (dictGet k)).length : ℚ))) ++ " TLM" := by
  unfold calculate_daily_averages at h
  by_cases he : pools.isEmpty
  · simp [he] at h
  · rw [if_neg he, List.mem_filterMap] at h
    obtain ⟨a, _, hfa⟩ := h
    by_cases hv : (((pools.filter (fun m => dictHas a m)).map (dictGet a))).isEmpty
    · simp only [hv, if_true] at hfa; cases hfa
    · rw [if_neg hv] at hfa
      have hpair := Option.some.inj hfa
      have hak : a = k := congrArg Prod.fst hpair
      have hval := congrArg Prod.snd hpair
      subst hak
      refine ⟨fun hnil => by rw [hnil] at hv; simp at hv, hval.symm⟩

theorem mem_enumFrom_of_mem {α : Type} : ∀ {l : List α} {d : α} (n : ℕ), d ∈ l →
    ∃ i, (i, d) ∈ List.enumFrom n l
  | [], _, _, h => absurd h (List.not_mem_nil _)
  | a :: t, d, n, h => by
    rcases List.mem_cons.mp h with rfl | ht
    · exact ⟨n, List.mem_cons_self _ _⟩
    · obtain ⟨i, hi⟩ := mem_enumFrom_of_mem (n + 1) ht
      exact ⟨i, List.mem_cons_of_mem _ hi⟩

theorem mem_enum_of_mem {α : Type} {l : List α} {d : α} (h : d ∈ l) :
    ∃ i, (i, d) ∈ l.enum :=
  mem_enumFrom_of_mem 0 h

theorem enumFrom_map_fst_succ {α : Type} : ∀ (l : List α) (n : ℕ),
    (List.enumFrom n l).map (fun p => p.1 + 1) = List.range' (n + 1) l.length
  | [], _ => rfl
  | a :: t, n => by
    show ((n, a).1 + 1) :: (List.enumFrom (n + 1) t).map (fun p => p.1 + 1) =
      (n + 1) :: List.range' (n + 2) t.length
    rw [enumFrom_map_fst_succ t (n + 1)]

theorem daysOf_sorted (rows : List SrcRow) : List.Sorted (· < ·) (daysOf rows) := by
  have hs : List.Sorted pyLeR (daysOf rows) := List.sorted_insertionSort _ _
  have hn : (daysOf rows).Nodup :=
    (List.perm_insertionSort _ _).symm.nodup (List.nodup_dedup _)
  exact sorted_lt_of_pyLe hs hn

theorem mem_daysOf {rows : List SrcRow} {d : String} :
    d ∈ daysOf rows ↔ ∃ p ∈ validOf rows, p.1 = d := by
  unfold daysOf
  rw [List.mem_insertionSort, List.mem_dedup, List.mem_map]

theorem sortedKeys_sorted (l : List String) :
    List.Sorted (· < ·) ((l.dedup).insertionSort pyLeR) := by
  have hs : List.Sorted pyLeR ((l.dedup).insertionSort pyLeR) :=
    List.sorted_insertionSort _ _
  have hn : ((l.dedup).insertionSort pyLeR).Nodup :=
    (List.perm_insertionSort _ _).symm.nodup (List.nodup_dedup _)
  exact sorted_lt_of_pyLe hs hn

theorem map_fst_filterMap_sublist {α β : Type} :
    ∀ (l : List α) (f : α → Option (α × β)), (∀ a p, f a = some p → p.1 = a) →
    ((l.filterMap f).map Prod.fst).Sublist l
  | [], _, _ => List.Sublist.refl _
  | a :: t, f, hf => by
    rw [List.filterMap_cons]
    cases hfa : f a with
    | none => exact (map_fst_filterMap_sublist t f hf).cons a
    | some p =>
      simp only [List.map_cons, hf a p hfa]
      exact (map_fst_filterMap_sublist t f hf).cons₂ a

theorem calc_keys_sorted (pools : List (List (String × ℚ))) :
    List.Sorted (· < ·) ((calculate_daily_averages pools).map Prod.fst) := by
  unfold calculate_daily_averages
  by_cases he : pools.isEmpty
  · simp [he]
  · rw [if_neg he]
    refine List.Pairwise.sublist (map_fst_filterMap_sublist _ _ ?_)
      (sortedKeys_sorted ((pools.flatMap (fun m => m.map Prod.fst))))
    intro a p hfa
    by_cases hv : (((pools.filter (fun m => dictHas a m)).map (dictGet a))).isEmpty
    · rw [if_pos hv] at hfa; cases hfa
    · rw [if_neg hv] at hfa
      exact (congrArg Prod.fst (Option.some.inj hfa)).symm

theorem storeRows_appendRows (s : RawStore) (xs : List StoreRow) :
    storeRows (appendRows s xs) = storeRows s ++ xs := by
  cases s <;> rfl

theorem mem_aggs {rows : List SrcRow} {aggs : List DailyAgg}
    (h : processCsvData rows = some aggs) {a : DailyAgg} (ha : a ∈ aggs) :
    ∃ i d, (i, d) ∈ (daysOf rows).enum ∧ a = aggOf rows i d := by
  rw [processCsvData_eq h] at ha
  obtain ⟨⟨i, d⟩, hp, he⟩ := List.mem_map.mp ha
  exact ⟨i, d, hp, he.symm⟩

/-- C1: for every day and every tier key appearing in that day's records,
the emitted average is computed as the sum of the key's values over only
the records of the day containing the key, divided by the count of those
records (formatted to four decimals with the unit suffix); a key present
in one of N records is averaged over 1, not N. -/
theorem claim1_daily_average {rows : List SrcRow} {aggs : List DailyAgg}
    (h : processCsvData rows = some aggs) {a : DailyAgg} (ha : a ∈ aggs)
    {kv : String × String} (hkv : kv ∈ a.avgpool) :
    specKeyRecords rows a.day kv.1 ≠ [] ∧
      kv.2 = format4 (specAvg rows a.day kv.1) ++ " TLM" := by
  obtain ⟨i, d, _, rfl⟩ := mem_aggs h ha
  cases kv with
  | mk k v =>
    show specKeyRecords rows d k ≠ [] ∧ v = format4 (specAvg rows d k) ++ " TLM"
    have hkv' : (k, v) ∈ calculate_daily_averages
        (((validOf rows).filter (fun q => q.1 = d)).map Prod.snd) := hkv
    have hc := mem_calc hkv'
    rw [values_eq rows d k] at hc
    refine ⟨fun hnil => hc.1 (by rw [hnil]; rfl), ?_⟩
    have hsa : specAvg rows d k =
        ((specKeyRecords rows d k).map (dictGet k)).sum /
          (((specKeyRecords rows d k).map (dictGet k)).length : ℚ) := by
      unfold specAvg
      rw [List.length_map]
    rw [hsa]
    exact hc.2

/-- C1 witness: the theorem applied to a one-row input. -/
theorem claim1_witness :
    specKeyRecords
        [⟨"2024-01-02T03:04:05", "[\x7b\"key\":\"Rare\",\"value\":\"0.5000 TLM\"\x7d]"⟩]
        "2024-01-02" "Rare" ≠ [] ∧
      "0.5000 TLM" = format4 (specAvg
        [⟨"2024-01-02T03:04:05", "[\x7b\"key\":\"Rare\",\"value\":\"0.5000 TLM\"\x7d]"⟩]
        "2024-01-02" "Rare") ++ " TLM" :=
  @claim1_daily_average
    [⟨"2024-01-02T03:04:05", "[\x7b\"key\":\"Rare\",\"value\":\"0.5000 TLM\"\x7d]"⟩]
    [⟨1, "2024-01-02", [("Rare", "0.5000 TLM")], 1⟩]
    (by decide)
    ⟨1, "2024-01-02", [("Rare", "0.5000 TLM")], 1⟩
    (List.mem_singleton_self _)
    ("Rare", "0.5000 TLM")
    (by decide)

/-- C2 counterexample: a row whose pool field decodes without error to an
empty list (`"[]"`) counts for the spec's "parsed successfully" but is
excluded from the emitted `numberofentries`, so the claim as stated
fails on a day with one `"[]"` row and one normal row. -/
theorem claim2_counterexample :
    ¬ (∀ (rows : List SrcRow) (aggs : List DailyAgg), processCsvData rows = some aggs →
        ∀ a ∈ aggs, a.numberofentries = specSuccessCount rows a.day) := by
  intro h
  have := h
    [⟨"2024-01-01 00:00:00", "[]"⟩,
     ⟨"2024-01-01 01:00:00", "[\x7b\"key\":\"Rare\",\"value\":\"1.0000 TLM\"\x7d]"⟩]
    [⟨1, "2024-01-01", [("Rare", "1.0000 TLM")], 1⟩]
    (by decide)
    ⟨1, "2024-01-01", [("Rare", "1.0000 TLM")], 1⟩
    (List.mem_singleton_self _)
  exact absurd this (by decide)

/-- C2 (amended): for every day in the output, `numberofentries` equals
the number of raw rows of that day whose parsed pool mapping is
non-empty (rows decoding to an empty mapping are excluded). -/
theorem claim2_entries_amended {rows : List SrcRow} {aggs : List DailyAgg}
    (h : processCsvData rows = some aggs) {a : DailyAgg} (ha : a ∈ aggs) :
    a.numberofentries =
      (rows.filter (fun r =>
        extract_date r.date = a.day && !(parsedMapOf r).isEmpty)).length := by
  obtain ⟨i, d, _, rfl⟩ := mem_aggs h ha
  show ((validOf rows).filter (fun q => q.1 = d)).length =
    (rows.filter (fun r => extract_date r.date = d && !(parsedMapOf r).isEmpty)).length
  rw [group_eq, List.length_map]
  congr 1
  apply List.filter_congr
  intro r _
  simp [Bool.and_comm]

/-- C2 witness: the amended theorem applied to a one-row input. -/
theorem claim2_witness :
    (⟨1, "2024-01-01", [("Rare", "1.0000 TLM")], 1⟩ : DailyAgg).numberofentries =
      (([⟨"2024-01-01 00:00:00", "[\x7b\"key\":\"Rare\",\"value\":\"1.0000 TLM\"\x7d]"⟩] :
          List SrcRow).filter (fun r =>
        extract_date r.date = "2024-01-01" && !(parsedMapOf r).isEmpty)).length :=
  @claim2_entries_amended
    [⟨"2024-01-01 00:00:00", "[\x7b\"key\":\"Rare\",\"value\":\"1.0000 TLM\"\x7d]"⟩]
    [⟨1, "2024-01-01", [("Rare", "1.0000 TLM")], 1⟩]
    (by decide)
    ⟨1, "2024-01-01", [("Rare", "1.0000 TLM")], 1⟩
    (List.mem_singleton_self _)

/-- C8: the aggregator emits exactly one row per distinct day of the
surviving records, days strictly ascending, ids consecutive from 1 in
that order, and each row's avgpool keys strictly ascending. -/
theorem claim8_output_shape {rows : List SrcRow} {aggs : List DailyAgg}
    (h : processCsvData rows = some aggs) :
    aggs.map (fun a => a.day) = daysOf rows ∧
    List.Sorted (· < ·) (aggs.map (fun a => a.day)) ∧
    (∀ d, d ∈ aggs.map (fun a => a.day) ↔ ∃ p ∈ validOf rows, p.1 = d) ∧
    aggs.map (fun a => a.id) = List.range' 1 aggs.length ∧
    ∀ a ∈ aggs, List.Sorted (· < ·) (a.avgpool.map Prod.fst) := by
  have he := processCsvData_eq h
  subst he
  have hdays : ((daysOf rows).enum.map (fun p => aggOf rows p.1 p.2)).map (fun a => a.day) =
      daysOf rows := by
    rw [List.map_map]
    have hc : ((fun a : DailyAgg => a.day) ∘ fun p : ℕ × String => aggOf rows p.1 p.2) =
        Prod.snd := funext fun p => rfl
    rw [hc, List.enum_map_snd]
  refine ⟨hdays, ?_, ?_, ?_, ?_⟩
  · rw [hdays]; exact daysOf_sorted rows
  · intro d; rw [hdays]; exact mem_daysOf
  · rw [List.map_map, List.length_map, List.enum_length]
    have hc : ((fun a : DailyAgg => a.id) ∘ fun p : ℕ × String => aggOf rows p.1 p.2) =
        (fun p : ℕ × String => p.1 + 1) := funext fun p => rfl
    rw [hc]
    exact enumFrom_map_fst_succ (daysOf rows) 0
  · intro a ha
    obtain ⟨⟨i, d⟩, _, he⟩ := List.mem_map.mp ha
    rw [← he]
    exact calc_keys_sorted (((validOf rows).filter (fun q => q.1 = d)).map Prod.snd)

/-- C8 witness: the theorem applied to a concrete two-day input. -/
theorem claim8_witness :
    (([⟨1, "2024-01-01", [("Rare", "0.1000 TLM")], 1⟩,
       ⟨2, "2024-01-02", [("Rare", "0.9000 TLM")], 1⟩] : List DailyAgg).map (fun a => a.id) =
      List.range' 1 2) ∧
    List.Sorted (· < ·)
      (([⟨1, "2024-01-01", [("Rare", "0.1000 TLM")], 1⟩,
         ⟨2, "2024-01-02", [("Rare", "0.9000 TLM")], 1⟩] : List DailyAgg).map
        (fun a => a.day)) := by
  have h := @claim8_output_shape
    [⟨"2024-01-01 00:00:00", "[\x7b\"key\":\"Rare\",\"value\":\"0.1000 TLM\"\x7d]"⟩,
     ⟨"2024-01-02 00:00:00", "[\x7b\"key\":\"Rare\",\"value\":\"0.9000 TLM\"\x7d]"⟩]
    [⟨1, "2024-01-01", [("Rare", "0.1000 TLM")], 1⟩,
     ⟨2, "2024-01-02", [("Rare", "0.9000 TLM")], 1⟩]
    (by decide)
  exact ⟨h.2.2.2.1, h.2.1⟩

/-- C10: the ingestion-time sentinel date `"Invalid timestamp"` is not
excluded by aggregation: the date normalizer maps it to `"Invalid"` (the
substring before its space), so a raw row carrying the sentinel with a
non-empty parsed pool yields an aggregate row whose day is `"Invalid"`,
counting every such surviving row of that pseudo-day. -/
theorem claim10_invalid_sentinel :
    extract_date "Invalid timestamp" = "Invalid" ∧
    ∀ (rows : List SrcRow) (aggs : List DailyAgg) (r : SrcRow),
      processCsvData rows = some aggs → r ∈ rows → r.date = "Invalid timestamp" →
      (parsedMapOf r).isEmpty = false →
      ∃ a ∈ aggs, a.day = "Invalid" ∧
        a.numberofentries =
          (rows.filter (fun x =>
            extract_date x.date = "Invalid" && !(parsedMapOf x).isEmpty)).length := by
  refine ⟨by decide, ?_⟩
  intro rows aggs r h hr hdate hne
  have hday : extract_date r.date = "Invalid" := by rw [hdate]; decide
  have hvm : pf r ∈ validOf rows := by
    unfold validOf
    refine List.mem_filter.mpr ⟨List.mem_map_of_mem pf hr, ?_⟩
    show (!(pf r).2.isEmpty) = true
    simp [pf, hne]
  have hmemday : "Invalid" ∈ daysOf rows :=
    mem_daysOf.mpr ⟨pf r, hvm, by simp [pf, hday]⟩
  obtain ⟨i, hi⟩ := mem_enum_of_mem hmemday
  refine ⟨aggOf rows i "Invalid", ?_, rfl, ?_⟩
  · rw [processCsvData_eq h]
    exact List.mem_map.mpr ⟨(i, "Invalid"), hi, rfl⟩
  · show ((validOf rows).filter (fun q => q.1 = "Invalid")).length =
      (rows.filter (fun x => extract_date x.date = "Invalid" && !(parsedMapOf x).isEmpty)).length
    rw [group_eq, List.length_map]
    congr 1
    apply List.filter_congr
    intro x _
    simp [Bool.and_comm]

/-- C10 witness: the theorem applied to a one-row input carrying the
sentinel date. -/
theorem claim10_witness :
    ∃ a ∈ ([⟨1, "Invalid", [("Rare", "0.5000 TLM")], 1⟩] : List DailyAgg),
      a.day = "Invalid" ∧
      a.numberofentries =
        (([⟨"Invalid timestamp", "[\x7b\"key\":\"Rare\",\"value\":\"0.5000 TLM\"\x7d]"⟩] :
            List SrcRow).filter (fun x =>
          extract_date x.date = "Invalid" && !(parsedMapOf x).isEmpty)).length :=
  claim10_invalid_sentinel.2
    [⟨"Invalid timestamp", "[\x7b\"key\":\"Rare\",\"value\":\"0.5000 TLM\"\x7d]"⟩]
    [⟨1, "Invalid", [("Rare", "0.5000 TLM")], 1⟩]
    ⟨"Invalid timestamp", "[\x7b\"key\":\"Rare\",\"value\":\"0.5000 TLM\"\x7d]"⟩
    (by decide)
    (List.mem_singleton_self _)
    rfl
    (by decide)

/-- C5 counterexample: `"hello world"` is in neither date-time form, yet
`extract_date` returns `"hello"`, not the original string — the claim's
"every other input is returned unchanged" fails. -/
theorem claim5_counterexample :
    ¬ (∀ s : String,
        (isDateTimeForm 'T' s = true → extract_date s = ⟨s.data.take 10⟩) ∧
        (isDateTimeForm ' ' s = true → extract_date s = ⟨s.data.take 10⟩) ∧
        (isDateTimeForm 'T' s = false → isDateTimeForm ' ' s = false →
          extract_date s = s)) := by
  intro h
  have := (h "hello world").2.2 (by decide) (by decide)
  exact absurd this (by decide)

/-- C5 (amended): on genuine date-time strings (`YYYY-MM-DD` date, a `T`
or space separator, `HH:MM:SS` time) the normalizer returns exactly the
date portion; an input containing neither a `T` nor a space is returned
unchanged; the function is total.  (Other inputs are truncated at the
first `T`, or else at the first space.) -/
theorem claim5_extract_date_amended (s : String) :
    (isDateTimeForm 'T' s = true → extract_date s = ⟨s.data.take 10⟩) ∧
    (isDateTimeForm ' ' s = true → extract_date s = ⟨s.data.take 10⟩) ∧
    ('T' ∉ s.data → ' ' ∉ s.data → extract_date s = s) := by
  refine ⟨?_, ?_, ?_⟩
  · intro hf
    rw [isDateTimeForm, Bool.and_eq_true] at hf
    obtain ⟨hd, hm⟩ := hf
    cases hdrop : s.data.drop 10 with
    | nil => rw [hdrop] at hm; cases hm
    | cons c t =>
      rw [hdrop, Bool.and_eq_true, decide_eq_true_eq] at hm
      obtain ⟨rfl, _⟩ := hm
      have hsplit : s.data = s.data.take 10 ++ 'T' :: t := by
        conv_lhs => rw [← List.take_append_drop 10 s.data]
        rw [hdrop]
      have hTmem : 'T' ∈ s.data := by
        rw [hsplit]; exact List.mem_append_right _ (List.mem_cons_self _ _)
      have htw : s.data.takeWhile (· ≠ 'T') = s.data.take 10 := by
        conv_lhs => rw [hsplit]
        exact takeWhile_append_stop t
          (fun c hc => by simpa using ne_T_of_dateChar (dateShape_chars hd c hc))
          (by simp)
      show (if 'T' ∈ s.data then (⟨s.data.takeWhile (· ≠ 'T')⟩ : String)
        else ⟨s.data.takeWhile (· ≠ ' ')⟩) = ⟨s.data.take 10⟩
      rw [if_pos hTmem, htw]
  · intro hf
    rw [isDateTimeForm, Bool.and_eq_true] at hf
    obtain ⟨hd, hm⟩ := hf
    cases hdrop : s.data.drop 10 with
    | nil => rw [hdrop] at hm; cases hm
    | cons c t =>
      rw [hdrop, Bool.and_eq_true, decide_eq_true_eq] at hm
      obtain ⟨rfl, ht⟩ := hm
      have hsplit : s.data = s.data.take 10 ++ ' ' :: t := by
        conv_lhs => rw [← List.take_append_drop 10 s.data]
        rw [hdrop]
      have hTnot : 'T' ∉ s.data := by
        rw [hsplit]
        intro hmem
        rcases List.mem_append.mp hmem with h1 | h2
        · exact ne_T_of_dateChar (dateShape_chars hd 'T' h1) rfl
        · rcases List.mem_cons.mp h2 with h3 | h4
          · cases h3
          · exact ne_T_of_timeChar (timeShape_chars ht 'T' h4) rfl
      have htw : s.data.takeWhile (· ≠ ' ') = s.data.take 10 := by
        conv_lhs => rw [hsplit]
        exact takeWhile_append_stop t
          (fun c hc => by simpa using ne_space_of_dateChar (dateShape_chars hd c hc))
          (by simp)
      show (if 'T' ∈ s.data then (⟨s.data.takeWhile (· ≠ 'T')⟩ : String)
        else ⟨s.data.takeWhile (· ≠ ' ')⟩) = ⟨s.data.take 10⟩
      rw [if_neg hTnot, htw]
  · intro hT hSp
    show (if 'T' ∈ s.data then (⟨s.data.takeWhile (· ≠ 'T')⟩ : String)
      else ⟨s.data.takeWhile (· ≠ ' ')⟩) = s
    rw [if_neg hT]
    have htw : s.data.takeWhile (· ≠ ' ') = s.data :=
      takeWhile_all (fun c hc => by
        have hcs : c ≠ ' ' := fun he => hSp (he ▸ hc)
        simpa using hcs)
    rw [htw]

/-- C5 witness: the amended theorem applied to the spec's own examples. -/
theorem claim5_witness :
    extract_date "2024-01-05T10:00:00" = "2024-01-05" ∧
    extract_date "2024-01-05 10:00:00" = "2024-01-05" ∧
    extract_date "nonsense" = "nonsense" := by
  refine ⟨?_, ?_, ?_⟩
  · exact ((claim5_extract_date_amended "2024-01-05T10:00:00").1 (by decide)).trans (by decide)
  · exact ((claim5_extract_date_amended "2024-01-05 10:00:00").2.1 (by decide)).trans (by decide)
  · exact (claim5_extract_date_amended "nonsense").2.2 (by decide) (by decide)

/-- C3 counterexample: the parser is not total — the input `"5"` decodes
without error to the integer literal `5`, and iterating it raises a
`TypeError` that the `except` clause (which catches only
`JSONDecodeError`, `ValueError`, `SyntaxError`) does not stop. -/
theorem claim3_counterexample :
    ¬ (∀ s : String, ∃ m, parse_pool_data s = Except.ok m) := by
  intro h
  obtain ⟨m, hm⟩ := h "5"
  have he : parse_pool_data "5" = Except.error PyError.typeError := by decide
  rw [he] at hm
  cases hm

/-- C3 (amended): a decode failure yields the empty mapping without any
exception, and the parser raises (a `TypeError`) exactly when the
nonblank input decodes to a non-iterable literal; a conversion failure
on one field drops only that field, keeping the rest of the record; the
two concrete examples behave as the spec states. -/
theorem claim3_parser_amended (s : String) (es : List (PyLit × PyLit)) (vLit : PyLit)
    (pre post : List PyLit) :
    (literal_eval (cleanPool s) = Option.none → parse_pool_data s = .ok []) ∧
    (parse_pool_data s = .error .typeError ↔
      ((stripWs s.data).isEmpty = false ∧
        ∃ lit, literal_eval (cleanPool s) = some lit ∧ pyIter lit = Option.none)) ∧
    (dictLookupStr es "value" = some vLit → floatOfValue vLit = Option.none →
      (pre ++ PyLit.dict es :: post).foldl poolStep [] = (pre ++ post).foldl poolStep []) ∧
    parse_pool_data "[\x7b\"key\":\"Rare\",\"value\":\"0.5000 TLM\"\x7d]" =
      .ok [("Rare", 1 / 2)] ∧
    parse_pool_data "\x7bnot valid\x7d" = .ok [] := by
  refine ⟨?_, ⟨?_, ?_⟩, ?_, by decide, by decide⟩
  · intro hle
    unfold parse_pool_data
    by_cases he : (stripWs s.data).isEmpty
    · rw [if_pos he]
    · rw [if_neg he, hle]
  · intro hp
    unfold parse_pool_data at hp
    by_cases he : (stripWs s.data).isEmpty
    · rw [if_pos he] at hp; cases hp
    · rw [if_neg he] at hp
      refine ⟨by simpa using he, ?_⟩
      cases hle : literal_eval (cleanPool s) with
      | none => rw [hle] at hp; cases hp
      | some lit =>
        rw [hle] at hp
        replace hp : (match pyIter lit with
          | Option.none => (Except.error PyError.typeError : Except PyError (List (String × ℚ)))
          | some items => Except.ok (items.foldl poolStep [])) =
            Except.error PyError.typeError := hp
        cases hit : pyIter lit with
        | none => exact ⟨lit, rfl, hit⟩
        | some items => rw [hit] at hp; cases hp
  · rintro ⟨he, lit, hle, hit⟩
    unfold parse_pool_data
    rw [if_neg (by simp [he]), hle]
    show (match pyIter lit with
      | Option.none => (Except.error PyError.typeError : Except PyError (List (String × ℚ)))
      | some items => Except.ok (items.foldl poolStep [])) = Except.error PyError.typeError
    rw [hit]
  · intro hv hf
    rw [List.foldl_append, List.foldl_append]
    have hstep : ∀ acc, poolStep acc (PyLit.dict es) = acc := by
      intro acc
      cases hk : dictLookupStr es "key" with
      | none => simp [poolStep, hk]
      | some kLit => cases kLit <;> simp [poolStep, hk, hv, hf]
    rw [List.foldl_cons, hstep]

/-- C3 witness: the amended theorem applied at concrete inputs — the
skip-field clause at a record whose value fails conversion, and the
raise characterization at the input `"5"`. -/
theorem claim3_witness :
    (([PyLit.dict [(PyLit.str "value", PyLit.str "abc")]] : List PyLit).foldl poolStep [] =
      ([] : List PyLit).foldl poolStep []) ∧
    parse_pool_data "5" = Except.error PyError.typeError := by
  constructor
  · have h := (claim3_parser_amended "5" [(PyLit.str "value", PyLit.str "abc")]
      (PyLit.str "abc") [] []).2.2.1 rfl rfl
    simpa using h
  · exact (claim3_parser_amended "5" [] PyLit.none [] []).2.1.2
      ⟨by decide, PyLit.int 5, rfl, rfl⟩

/-- C6 counterexample: a batch containing the same id twice is appended
twice (the dedup filter only consults ids already in the store), so "each
unique id appears at most once after ingestion" fails as stated. -/
theorem claim6_counterexample :
    ¬ (∀ (stored batch : List StoreRow),
        ((storeRows (ingestStep (RawStore.table stored) batch)).map StoreRow.id).Nodup ∧
        ingestStep (ingestStep (RawStore.table stored) batch) batch =
          ingestStep (RawStore.table stored) batch) := by
  intro h
  have := (h [⟨"0", "d", "p", "t"⟩] [⟨"1", "d", "p", "t"⟩, ⟨"1", "d", "p", "t"⟩]).1
  exact absurd this (by decide)

/-- C6 (amended): when the readable store's ids and the batch's ids are
each duplicate-free, every id appears at most once after ingestion; and
ingesting the same batch a second time leaves the table unchanged
(non-conditionally). -/
theorem claim6_dedup_amended (stored batch : List StoreRow) :
    ((stored.map StoreRow.id).Nodup → (batch.map StoreRow.id).Nodup →
      ((storeRows (ingestStep (RawStore.table stored) batch)).map StoreRow.id).Nodup) ∧
    ingestStep (ingestStep (RawStore.table stored) batch) batch =
      ingestStep (RawStore.table stored) batch := by
  constructor
  · intro hs hb
    unfold ingestStep
    by_cases hnr : (new_rows (RawStore.table stored) batch).isEmpty
    · rw [if_pos hnr]; exact hs
    · rw [if_neg hnr, storeRows_appendRows]
      show ((stored ++ new_rows (RawStore.table stored) batch).map StoreRow.id).Nodup
      rw [List.map_append, List.nodup_append]
      refine ⟨hs, ?_, ?_⟩
      · exact List.Nodup.sublist ((List.filter_sublist batch).map StoreRow.id) hb
      · intro x hx1 hx2
        obtain ⟨r, hr, rfl⟩ := List.mem_map.mp hx2
        have hrf := (List.mem_filter.mp hr).2
        rw [decide_eq_true_eq] at hrf
        exact hrf hx1
  · by_cases hnr : (new_rows (RawStore.table stored) batch).isEmpty
    · have h1 : ingestStep (RawStore.table stored) batch = RawStore.table stored := by
        unfold ingestStep; rw [if_pos hnr]
      rw [h1]
      exact h1
    · have h1 : ingestStep (RawStore.table stored) batch =
          RawStore.table (stored ++ new_rows (RawStore.table stored) batch) := by
        unfold ingestStep; rw [if_neg hnr]; rfl
      rw [h1]
      have h2 : new_rows
          (RawStore.table (stored ++ new_rows (RawStore.table stored) batch)) batch = [] := by
        apply List.filter_eq_nil_iff.mpr
        intro r hr
        rw [decide_eq_true_eq, not_not]
        show r.id ∈ (stored ++ new_rows (RawStore.table stored) batch).map StoreRow.id
        rw [List.map_append, List.mem_append]
        by_cases hmem : r.id ∈ stored.map StoreRow.id
        · exact Or.inl hmem
        · right
          have hrn : r ∈ new_rows (RawStore.table stored) batch :=
            List.mem_filter.mpr ⟨hr, by simpa [existing_ids] using hmem⟩
          exact List.mem_map_of_mem _ hrn
      unfold ingestStep
      rw [h2]
      rfl

/-- C7: when the existing raw table is unreadable or lacks an `id`
column, ingestion does not abort: the dedup index degrades to the empty
set, every incoming record counts as new, and the whole batch is
appended after the store's physical rows. -/
theorem claim7_unreadable_fallback (rows batch : List StoreRow) :
    new_rows (RawStore.unreadable rows) batch = batch ∧
    new_rows (RawStore.missingId rows) batch = batch ∧
    storeRows (ingestStep (RawStore.unreadable rows) batch) = rows ++ batch ∧
    storeRows (ingestStep (RawStore.missingId rows) batch) = rows ++ batch := by
  have h1 : new_rows (RawStore.unreadable rows) batch = batch := by
    apply List.filter_eq_self.mpr
    intro r _
    simp [existing_ids]
  have h2 : new_rows (RawStore.missingId rows) batch = batch := by
    apply List.filter_eq_self.mpr
    intro r _
    simp [existing_ids]
  refine ⟨h1, h2, ?_, ?_⟩
  · unfold ingestStep
    rw [h1]
    by_cases hb : batch.isEmpty
    · rw [if_pos hb, List.isEmpty_iff.mp hb, List.append_nil]; rfl
    · rw [if_neg hb, storeRows_appendRows]; rfl
  · unfold ingestStep
    rw [h2]
    by_cases hb : batch.isEmpty
    · rw [if_pos hb, List.isEmpty_iff.mp hb, List.append_nil]; rfl
    · rw [if_neg hb, storeRows_appendRows]; rfl

/-- C9 counterexample: a response row with missing fields is a
structural error, but it is skipped — the rest of the batch is still
appended, so the table does not stay in its prior state. -/
theorem claim9_counterexample :
    ¬ (∀ (apiRows : List ApiRow) (w : Bool) (s : RawStore),
        runIngestion FetchResult.netError w s = s ∧
        runIngestion FetchResult.badShape w s = s ∧
        runIngestion (FetchResult.ok apiRows) false s = s ∧
        ((∃ r ∈ apiRows, processApiRow r = Option.none) →
          runIngestion (FetchResult.ok apiRows) w s = s)) := by
  intro h
  have := (h [⟨Option.none, Option.none, Option.none⟩,
      ⟨some "1", some "2024-01-01T00:00:00", some "p"⟩] true
      (RawStore.table [⟨"0", "x", "y", "z"⟩])).2.2.2
      ⟨⟨Option.none, Option.none, Option.none⟩, by simp, rfl⟩
  exact absurd this (by decide)

/-- C9 (amended): a network error, a structurally unusable response, or
a failing write leaves the store exactly in its prior state; on a
successful run the store's rows are extended by exactly the deduplicated
processed rows — response rows with missing fields are skipped
individually and never reach the store. -/
theorem claim9_failure_amended (rows : List ApiRow) (w : Bool) (s : RawStore) :
    runIngestion FetchResult.netError w s = s ∧
    runIngestion FetchResult.badShape w s = s ∧
    runIngestion (FetchResult.ok rows) false s = s ∧
    storeRows (runIngestion (FetchResult.ok rows) true s) =
      storeRows s ++ new_rows s (rows.filterMap processApiRow) := by
  refine ⟨rfl, rfl, ?_, ?_⟩
  · show (if rows.isEmpty then s
      else if (rows.filterMap processApiRow).isEmpty then s
      else if false then ingestStep s (rows.filterMap processApiRow) else s) = s
    by_cases h1 : rows.isEmpty
    · rw [if_pos h1]
    · rw [if_neg h1]
      by_cases h2 : (rows.filterMap processApiRow).isEmpty
      · rw [if_pos h2]
      · rw [if_neg h2]; rfl
  · show storeRows (if rows.isEmpty then s
      else if (rows.filterMap processApiRow).isEmpty then s
      else if true then ingestStep s (rows.filterMap processApiRow) else s) =
      storeRows s ++ new_rows s (rows.filterMap processApiRow)
    by_cases h1 : rows.isEmpty
    · rw [if_pos h1, List.isEmpty_iff.mp h1]
      show storeRows s = storeRows s ++ new_rows s []
      rw [show new_rows s [] = [] from rfl, List.append_nil]
    · rw [if_neg h1]
      by_cases h2 : (rows.filterMap processApiRow).isEmpty
      · rw [if_pos h2, List.isEmpty_iff.mp h2]
        show storeRows s = storeRows s ++ new_rows s []
        rw [show new_rows s [] = [] from rfl, List.append_nil]
      · rw [if_neg h2, if_pos rfl]
        unfold ingestStep
        by_cases h3 : (new_rows s (rows.filterMap processApiRow)).isEmpty
        · rw [if_pos h3, List.isEmpty_iff.mp h3, List.append_nil]
        · rw [if_neg h3, storeRows_appendRows]

/-- C6 witness: the amended theorem applied at a concrete store and
batch with duplicate-free ids. -/
theorem claim6_witness :
    ((storeRows (ingestStep (RawStore.table [⟨"0", "a", "b", "c"⟩])
        [⟨"1", "d", "e", "f"⟩])).map StoreRow.id).Nodup :=
  (claim6_dedup_amended [⟨"0", "a", "b", "c"⟩] [⟨"1", "d", "e", "f"⟩]).1
    (by decide) (by decide)
